import Mathlib

/-!
Shallow embedding of `src/rrdtool.c` (collectd's rrdtool plugin): the
write-coalescing accumulator cache and the singly linked dispatch queue,
together with the operations that mutate them (`rrd_cache_insert`,
`rrd_cache_flush`, `rrd_cache_flush_identifier`, `rrd_flush`,
`rrd_queue_cache_entry`, `rrd_queue_move_to_front`, and one iteration of
`rrd_queue_thread`).  Allocation (`malloc`/`strdup`/`realloc`) is modelled
as always succeeding; `time_t` is modelled as `Int`.
-/

namespace Rrdtool

/-- The `flags` enumeration of `struct rrd_cache_s` (rrdtool.c lines 43-47). -/
inductive CacheFlag where
  | FLAG_NONE
  | FLAG_QUEUED
deriving DecidableEq, Repr

export CacheFlag (FLAG_NONE FLAG_QUEUED)

/-- `struct rrd_cache_s` (rrdtool.c lines 37-48): the per-file accumulator.
`values` is the `char **values` vector of update tokens, `values_num` its
length field. -/
structure rrd_cache_t where
  values_num : Nat
  values : List String
  first_value : Int
  last_value : Int
  flags : CacheFlag
deriving DecidableEq, Repr

/-- `enum rrd_queue_dir_e` (rrdtool.c lines 51-55). -/
inductive rrd_queue_dir_t where
  | QUEUE_INSERT_FRONT
  | QUEUE_INSERT_BACK
deriving DecidableEq, Repr

export rrd_queue_dir_t (QUEUE_INSERT_FRONT QUEUE_INSERT_BACK)

/-- The dispatch queue: the chain of `rrd_queue_t` nodes reachable from
`queue_head` (rrdtool.c lines 107-108), as the list of their filenames,
together with `tl`, the index within that chain of the node the separate
`queue_tail` pointer addresses.  `tl` is meaningful only when `nodes` is
non-empty (`queue_head = NULL ↔ queue_tail = NULL` in the C code); the
tail pointer can go stale because `rrd_queue_move_to_front` never updates
it, which this model reproduces. -/
structure RQueue where
  nodes : List String
  tl : Nat
deriving DecidableEq, Repr

/-- The queue is well formed when the `queue_tail` pointer addresses the
last node of the chain (or the queue is empty). -/
def RQueue.wf (q : RQueue) : Prop :=
  q.nodes = [] ∨ q.tl + 1 = q.nodes.length

instance (q : RQueue) : Decidable q.wf := by
  unfold RQueue.wf; infer_instance

/-- `rrd_queue_cache_entry` (rrdtool.c lines 338-377) restricted to its
queue-splicing effect, allocation succeeding.  A back insert follows
`queue_tail->next = queue_entry; queue_tail = queue_entry`: the chain from
the head is truncated after the node `tl` addresses and the new node is
linked there.  A front insert pushes on the head and leaves `queue_tail`
alone (so the node it addresses shifts one position down).  Returns the C
function's status (always `0` here). -/
def rrd_queue_cache_entry (filename : String) (dir : rrd_queue_dir_t) (q : RQueue) :
    Int × RQueue :=
  match dir with
  | QUEUE_INSERT_FRONT =>
      if q.nodes.isEmpty then (0, ⟨[filename], 0⟩)
      else (0, ⟨filename :: q.nodes, q.tl + 1⟩)
  | QUEUE_INSERT_BACK =>
      if q.nodes.isEmpty then (0, ⟨[filename], 0⟩)
      else (0, ⟨q.nodes.take (q.tl + 1) ++ [filename], (q.nodes.take (q.tl + 1)).length⟩)

/-- The scan loop of `rrd_queue_move_to_front` (rrdtool.c lines 387-392):
the index of the first node carrying the filename, if any. -/
def queueFindIdx (filename : String) : List String → Option Nat
  | [] => none
  | x :: xs => if x = filename then some 0 else (queueFindIdx filename xs).map (· + 1)

/-- `rrd_queue_move_to_front` (rrdtool.c lines 379-404): scan from
`queue_head` for the first node whose filename matches; if it exists and is
not the head, unlink it and relink it at the head.  `queue_tail` is *not*
updated, so `tl` is adjusted only to keep addressing the same node.  The C
function returns `0` unconditionally. -/
def rrd_queue_move_to_front (filename : String) (q : RQueue) : RQueue × Int :=
  match queueFindIdx filename q.nodes with
  | none => (q, 0)
  | some i =>
      if i = 0 then (q, 0)
      else (⟨filename :: q.nodes.eraseIdx i,
             if q.tl = i then 0 else if q.tl < i then q.tl + 1 else q.tl⟩, 0)

/-- Lookup in the accumulator cache.  Modelled from the spec: the cache is
a `c_avl_tree_t` keyed by `strcmp` (`utils_avltree.c` is not part of this
repository); it is modelled as an association list with unique keys and
`c_avl_get` as the first-match lookup.  The model iterates entries in list
order where the tree iterates in `strcmp` order; no property proved here
depends on which of the two orders the traversal uses. -/
def cacheGet : List (String × rrd_cache_t) → String → Option rrd_cache_t
  | [], _ => none
  | (k, v) :: rest, key => if key = k then some v else cacheGet rest key

/-- Store into the accumulator cache.  Modelled from the spec: `c_avl_insert`
of a fresh key, or the in-place update of the entry a `c_avl_get` returned
a pointer to; keeps the list in key order. -/
def cacheUpdate : List (String × rrd_cache_t) → String → rrd_cache_t →
    List (String × rrd_cache_t)
  | [], key, v => [(key, v)]
  | (k, v') :: rest, key, v =>
      if key = k then (key, v) :: rest
      else (k, v') :: cacheUpdate rest key v

/-- Removal from the accumulator cache.  Modelled from the spec:
`c_avl_remove` deletes the (unique) node with the given key. -/
def cacheRemove : List (String × rrd_cache_t) → String → List (String × rrd_cache_t)
  | [], _ => []
  | (k, v) :: rest, key => if key = k then rest else (k, v) :: cacheRemove rest key

/-- The state protected by `cache_lock` and `queue_lock` once `rrd_init`
has created the cache: the cache tree, the dispatch queue, the variables
`cache_flush_last`, `cache_timeout`, `cache_flush_timeout` and `datadir`
(rrdtool.c lines 84, 101-108). -/
structure CState where
  cache : List (String × rrd_cache_t)
  queue : RQueue
  cache_flush_last : Int
  cache_timeout : Int
  cache_flush_timeout : Int
  datadir : Option String
deriving DecidableEq, Repr

/-- The zero-initialised entry `rrd_cache_insert` allocates for a filename
it has never seen (rrdtool.c lines 537-544): no tokens, `first_value = 0`,
`last_value = 0`, `flags = FLAG_NONE`. -/
def freshEntry : rrd_cache_t :=
  { values_num := 0, values := [], first_value := 0, last_value := 0,
    flags := FLAG_NONE }

/-- The traversal of `rrd_cache_flush` (rrdtool.c lines 423-455): walk the
entries in order; skip `FLAG_QUEUED` entries; skip entries younger than
`timeout`; enqueue non-empty remaining entries at the back and mark them
queued; collect the keys of empty remaining entries for deletion.  Returns
the rewritten entry list, the grown queue, and the collected keys in
traversal order. -/
def flushScan (timeout now : Int) :
    List (String × rrd_cache_t) → RQueue →
    List (String × rrd_cache_t) × RQueue × List String
  | [], q => ([], q, [])
  | (key, rc) :: rest, q =>
      if rc.flags = FLAG_QUEUED then
        let r := flushScan timeout now rest q
        ((key, rc) :: r.1, r.2.1, r.2.2)
      else if now - rc.first_value < timeout then
        let r := flushScan timeout now rest q
        ((key, rc) :: r.1, r.2.1, r.2.2)
      else if rc.values_num > 0 then
        let r := flushScan timeout now rest
          (rrd_queue_cache_entry key QUEUE_INSERT_BACK q).2
        ((key, { rc with flags := FLAG_QUEUED }) :: r.1, r.2.1, r.2.2)
      else
        let r := flushScan timeout now rest q
        ((key, rc) :: r.1, r.2.1, key :: r.2.2)

/-- `rrd_cache_flush` (rrdtool.c lines 406-476): the sweep.  Traverse the
cache enqueueing aged non-empty entries, delete the collected empty keys
after the traversal, and record `cache_flush_last = now`.  `now` is the
`time (NULL)` taken at the start of the function. -/
def rrd_cache_flush (timeout now : Int) (s : CState) : CState :=
  let r := flushScan timeout now s.cache s.queue
  let c2 := r.2.2.foldl cacheRemove r.1
  { s with cache := c2, queue := r.2.1, cache_flush_last := now }

/-- `rrd_cache_insert` (rrdtool.c lines 524-637), allocation succeeding.
Look the filename up, materialising a zeroed entry when absent; reject the
sample with `-1` when `last_value ≥ value_time`, leaving the state
untouched; otherwise append the token, maintain `first_value`/`last_value`,
enqueue at the back and mark `FLAG_QUEUED` when the entry's age reaches
`cache_timeout` and it is not already queued, and finally run the in-line
sweep when `cache_timeout > 0` and more than `cache_flush_timeout` seconds
passed since `cache_flush_last`.  `now` is the `time (NULL)` of line 630. -/
def rrd_cache_insert (filename value : String) (value_time now : Int) (s : CState) :
    Int × CState :=
  let rc0 := (cacheGet s.cache filename).getD freshEntry
  if rc0.last_value ≥ value_time then (-1, s)
  else
    let rc1 := { rc0 with
      values := rc0.values ++ [value],
      values_num := rc0.values_num + 1 }
    let rc2 := { rc1 with
      first_value := if rc1.values_num = 1 then value_time else rc1.first_value,
      last_value := value_time }
    let rq :=
      if rc2.last_value - rc2.first_value ≥ s.cache_timeout then
        if rc2.flags ≠ FLAG_QUEUED then
          let r := rrd_queue_cache_entry filename QUEUE_INSERT_BACK s.queue
          if r.1 = 0 then ({ rc2 with flags := FLAG_QUEUED }, r.2) else (rc2, r.2)
        else (rc2, s.queue)
      else (rc2, s.queue)
    let s1 := { s with cache := cacheUpdate s.cache filename rq.1, queue := rq.2 }
    let s2 :=
      if s.cache_timeout > 0 ∧ now - s.cache_flush_last > s.cache_flush_timeout then
        rrd_cache_flush s.cache_flush_timeout now s1
      else s1
    (0, s2)

/-- `snprintf` into a bounded buffer keeps at most `n` characters (the
buffer size minus the terminating NUL); the C string type is modelled at
the character level. -/
def snprintfTrunc (s : String) (n : Nat) : String :=
  ⟨s.data.take n⟩

/-- The key `rrd_cache_flush_identifier` rebuilds from an identifier
(rrdtool.c lines 493-499): `{datadir/}identifier.rrd`, written by
`snprintf` into a 2048-byte buffer. -/
def flushKey (datadir : Option String) (identifier : String) : String :=
  snprintfTrunc (match datadir with
    | none => identifier ++ ".rrd"
    | some d => d ++ "/" ++ identifier ++ ".rrd") 2047

/-- `rrd_cache_flush_identifier` (rrdtool.c lines 478-522).  With no
identifier, run the sweep.  With an identifier, rebuild the key as
`{datadir/}identifier.rrd` (truncated to the 2048-byte buffer); a missing
key returns the failing `c_avl_get` status (modelled from the spec as the
`NOT_FOUND` value `-1`; `utils_avltree.c` is not part of this repository);
a queued entry is promoted to the queue head; a younger-than-`timeout`
entry reports success untouched; a non-empty entry is enqueued at the
front and marked queued. -/
def rrd_cache_flush_identifier (timeout : Int) (identifier : Option String)
    (now : Int) (s : CState) : Int × CState :=
  match identifier with
  | none => (0, rrd_cache_flush timeout now s)
  | some id =>
      let key := flushKey s.datadir id
      match cacheGet s.cache key with
      | none => (-1, s)
      | some rc =>
          if rc.flags = FLAG_QUEUED then
            let r := rrd_queue_move_to_front key s.queue
            (r.2, { s with queue := r.1 })
          else if now - rc.first_value < timeout then (0, s)
          else if rc.values_num > 0 then
            let (st, q') := rrd_queue_cache_entry key QUEUE_INSERT_FRONT s.queue
            if st = 0 then
              let c' := cacheUpdate s.cache key { rc with flags := FLAG_QUEUED }
              (st, { s with queue := q', cache := c' })
            else (st, { s with queue := q' })
          else (0, s)

/-- `rrd_flush` (rrdtool.c lines 700-713): the host-facing flush.  A null
cache returns `0` immediately; otherwise `rrd_cache_flush_identifier` runs
under the cache lock, its status is discarded, and `0` is returned. -/
def rrd_flush (timeout : Int) (identifier : Option String) (now : Int)
    (s : Option CState) : Int × Option CState :=
  match s with
  | none => (0, none)
  | some st =>
      let (_, st') := rrd_cache_flush_identifier timeout identifier now st
      (0, some st')

/-- The dequeue step at the top of `rrd_queue_thread` (rrdtool.c lines
289-297): `none` when `queue_head = NULL`; otherwise unlink the head node
(`queue_head == queue_tail`, i.e. `tl = 0`, empties the queue entirely —
nodes the stale tail pointer cut off are dropped). -/
def rrd_queue_dequeue (q : RQueue) : Option (String × RQueue) :=
  match q.nodes with
  | [] => none
  | f :: rest => if q.tl = 0 then some (f, ⟨[], 0⟩) else some (f, ⟨rest, q.tl - 1⟩)

/-- One iteration of the `rrd_queue_thread` loop body (rrdtool.c lines
277-326): dequeue the head filename, look its entry up and steal the
`values` vector, leaving the entry with `values = NULL`, `values_num = 0`,
`flags = FLAG_NONE` (lines 303-310).  Returns the new state, the filename
and the stolen tokens handed to `srrd_update`.  The C code does not check
the `c_avl_get` status (line 303); a missing entry is modelled as stealing
nothing. -/
def rrd_queue_thread_step (s : CState) : Option (CState × String × List String) :=
  match rrd_queue_dequeue s.queue with
  | none => none
  | some (f, q') =>
      match cacheGet s.cache f with
      | none => some ({ s with queue := q' }, f, [])
      | some rc =>
          let c' := cacheUpdate s.cache f
            { rc with values := [], values_num := 0, flags := FLAG_NONE }
          some ({ s with queue := q', cache := c' }, f, rc.values)

/-- The derived-timeout computation of `rrd_init` (rrdtool.c lines
891-897): `cache_timeout < 2` zeroes both timeouts; otherwise a
`cache_flush_timeout` below `cache_timeout` is raised to ten times
`cache_timeout`. -/
def rrd_init_timeouts (ct cft : Int) : Int × Int :=
  if ct < 2 then (0, 0)
  else if cft < ct then (ct, 10 * ct)
  else (ct, cft)

/-- The chain of bounded `ssnprintf` appends in `value_list_to_filename`
(rrdtool.c lines 220-262), one list element per `ssnprintf` call.  Each
call reports the untruncated length of its piece; `(status < 1) ||
(status >= buffer_len - offset)` aborts the whole encoding.  C strings are
modelled at the character level, so lengths count characters. -/
def vlf_fold (buffer_len : Nat) : List String → String → Nat → Option String
  | [], s, _ => some s
  | p :: ps, s, offset =>
      if p.length < 1 ∨ buffer_len - offset ≤ p.length then none
      else vlf_fold buffer_len ps (s ++ p) (offset + p.length)

/-- `value_list_to_filename` (rrdtool.c lines 220-262): build
`{datadir/}host/plugin{-plugin_instance}/type{-type_instance}.rrd` piece
by piece, failing when any `ssnprintf` would truncate.  `rrd_write` calls
it with a 512-byte buffer. -/
def value_list_to_filename (buffer_len : Nat) (datadir : Option String)
    (host plugin plugin_instance vtype type_instance : String) : Option String :=
  vlf_fold buffer_len
    ((match datadir with
      | none => []
      | some d => [d ++ "/"]) ++
     [host ++ "/",
      if plugin_instance.length > 0 then plugin ++ "-" ++ plugin_instance ++ "/"
      else plugin ++ "/",
      if type_instance.length > 0 then vtype ++ "-" ++ type_instance ++ ".rrd"
      else vtype ++ ".rrd"])
    "" 0

/-- The canonical filename the specification promises:
`{datadir/}host/plugin{-plugin_instance}/type{-type_instance}.rrd`, an
empty instance suppressing its `-instance` suffix entirely. -/
def canonicalFilename (datadir : Option String)
    (host plugin plugin_instance vtype type_instance : String) : String :=
  (match datadir with
    | none => ""
    | some d => d ++ "/") ++
  host ++ "/" ++
  plugin ++ (if plugin_instance = "" then "" else "-" ++ plugin_instance) ++ "/" ++
  vtype ++ (if type_instance = "" then "" else "-" ++ type_instance) ++ ".rrd"

/-- Concatenation of the encoder's pieces. -/
def strConcat : List String → String
  | [] => ""
  | p :: ps => p ++ strConcat ps

/-- What the sweep traversal does to a single entry's value: entries that
are not queued, not younger than the threshold, and non-empty get
`flags = FLAG_QUEUED`; every other entry is untouched (deletion of the
collected empty keys happens after the traversal). -/
def valueMark (timeout now : Int) (rc : rrd_cache_t) : rrd_cache_t :=
  if rc.flags ≠ FLAG_QUEUED ∧ ¬(now - rc.first_value < timeout) ∧ rc.values_num > 0
  then { rc with flags := FLAG_QUEUED } else rc

/-- Whether the sweep traversal enqueues the entry. -/
def sweepEnqueues (timeout now : Int) (rc : rrd_cache_t) : Prop :=
  rc.flags ≠ FLAG_QUEUED ∧ ¬(now - rc.first_value < timeout) ∧ rc.values_num > 0

instance (timeout now : Int) (rc : rrd_cache_t) :
    Decidable (sweepEnqueues timeout now rc) := by
  unfold sweepEnqueues; infer_instance

/-- Whether the sweep traversal collects the entry's key for deletion. -/
def sweepDeletes (timeout now : Int) (rc : rrd_cache_t) : Prop :=
  rc.flags ≠ FLAG_QUEUED ∧ ¬(now - rc.first_value < timeout) ∧ rc.values_num = 0

instance (timeout now : Int) (rc : rrd_cache_t) :
    Decidable (sweepDeletes timeout now rc) := by
  unfold sweepDeletes; infer_instance

/-- The state right after `rrd_init` with a configured `CacheTimeout`
below 2 (both timeouts zeroed, empty cache, empty queue, no `DataDir`). -/
def emptyState : CState :=
  { cache := [], queue := ⟨[], 0⟩, cache_flush_last := 0,
    cache_timeout := 0, cache_flush_timeout := 0, datadir := none }

/-- Witness state for the double-queue bug: insert a first file.  All
inserts below use timestamp 1 at time 1 with `cache_timeout = 0`, so every
first insert enqueues its file immediately. -/
def c1_s1 : CState := (rrd_cache_insert "a.rrd" "1:0" 1 1 emptyState).2

/-- Second file inserted and enqueued; the queue is now
`a.rrd, b.rrd` with the tail pointer on `b.rrd`. -/
def c1_s2 : CState := (rrd_cache_insert "b.rrd" "1:0" 1 1 c1_s1).2

/-- Targeted flush of the queued `b.rrd`: `rrd_queue_move_to_front`
relinks it at the head but leaves `queue_tail` pointing at it. -/
def c1_s3 : CState := (rrd_cache_flush_identifier 0 (some "b") 1 c1_s2).2

/-- Third file inserted: the back insert follows the stale `queue_tail`,
overwriting the head node's `next` pointer and dropping `a.rrd` from the
queue while its cache entry still carries `FLAG_QUEUED`. -/
def c1_s4 : CState := (rrd_cache_insert "c.rrd" "1:0" 1 1 c1_s3).2

/-- A state with one queued file holding two tokens, as the writer finds
it when it wakes up. -/
def writerDemoState : CState :=
  { cache := [("x.rrd", ⟨2, ["1:0", "2:0"], 1, 2, FLAG_QUEUED⟩)],
    queue := ⟨["x.rrd"], 0⟩, cache_flush_last := 0,
    cache_timeout := 10, cache_flush_timeout := 100, datadir := none }

/-- A state exercising every branch of the shutdown sweep: a queued entry,
a non-empty idle entry and an empty idle entry. -/
def sweepDemoState : CState :=
  { cache := [("q.rrd", ⟨1, ["5:1"], 5, 5, FLAG_QUEUED⟩),
              ("n.rrd", ⟨2, ["3:1", "4:1"], 3, 4, FLAG_NONE⟩),
              ("e.rrd", ⟨0, [], 0, 2, FLAG_NONE⟩)],
    queue := ⟨["q.rrd"], 0⟩, cache_flush_last := 0,
    cache_timeout := 10, cache_flush_timeout := 100, datadir := none }

/-! ## Association-list lemmas for the cache tree -/

theorem cacheGet_cacheUpdate_self (c : List (String × rrd_cache_t)) (k : String)
    (v : rrd_cache_t) : cacheGet (cacheUpdate c k v) k = some v := by
  induction c with
  | nil => simp [cacheUpdate, cacheGet]
  | cons kv rest ih =>
      obtain ⟨k', v'⟩ := kv
      by_cases h : k = k' <;> simp [cacheUpdate, cacheGet, h, ih]

theorem cacheGet_cacheUpdate_ne (c : List (String × rrd_cache_t)) (k k' : String)
    (v : rrd_cache_t) (h : k' ≠ k) :
    cacheGet (cacheUpdate c k v) k' = cacheGet c k' := by
  induction c with
  | nil => simp [cacheUpdate, cacheGet, h]
  | cons kv rest ih =>
      obtain ⟨k₀, v₀⟩ := kv
      by_cases h₀ : k = k₀
      · subst h₀; simp [cacheUpdate, cacheGet, h]
      · by_cases h₁ : k' = k₀ <;> simp [cacheUpdate, cacheGet, h₀, h₁, ih]

theorem keys_cacheUpdate_of_mem (c : List (String × rrd_cache_t)) (k : String)
    (v : rrd_cache_t) (h : k ∈ c.map Prod.fst) :
    (cacheUpdate c k v).map Prod.fst = c.map Prod.fst := by
  induction c with
  | nil => simp at h
  | cons kv rest ih =>
      obtain ⟨k₀, v₀⟩ := kv
      by_cases h₀ : k = k₀
      · simp [cacheUpdate, h₀]
      · rcases List.mem_cons.mp h with h₁ | h₁
        · exact absurd h₁ h₀
        · simp [cacheUpdate, h₀, ih h₁]

theorem keys_cacheUpdate_of_not_mem (c : List (String × rrd_cache_t)) (k : String)
    (v : rrd_cache_t) (h : k ∉ c.map Prod.fst) :
    (cacheUpdate c k v).map Prod.fst = c.map Prod.fst ++ [k] := by
  induction c with
  | nil => simp [cacheUpdate]
  | cons kv rest ih =>
      obtain ⟨k₀, v₀⟩ := kv
      have h₁ : ¬ k = k₀ := fun e => h (by simp [e])
      have h₂ : k ∉ rest.map Prod.fst := fun e => h (by simp [e])
      simp [cacheUpdate, h₁, ih h₂]

theorem mem_keys_cacheUpdate (c : List (String × rrd_cache_t)) (k k' : String)
    (v : rrd_cache_t) (h : k' ∈ c.map Prod.fst) :
    k' ∈ (cacheUpdate c k v).map Prod.fst := by
  by_cases hm : k ∈ c.map Prod.fst
  · rw [keys_cacheUpdate_of_mem c k v hm]; exact h
  · rw [keys_cacheUpdate_of_not_mem c k v hm]; exact List.mem_append_left _ h

theorem nodup_keys_cacheUpdate (c : List (String × rrd_cache_t)) (k : String)
    (v : rrd_cache_t) (h : (c.map Prod.fst).Nodup) :
    ((cacheUpdate c k v).map Prod.fst).Nodup := by
  by_cases hm : k ∈ c.map Prod.fst
  · rw [keys_cacheUpdate_of_mem c k v hm]; exact h
  · rw [keys_cacheUpdate_of_not_mem c k v hm]
    refine List.Nodup.append h (List.nodup_singleton k) ?_
    intro a ha hb
    simp at hb
    subst hb
    exact hm ha

theorem mem_of_cacheGet (c : List (String × rrd_cache_t)) (k : String)
    (rc : rrd_cache_t) (h : cacheGet c k = some rc) : (k, rc) ∈ c := by
  induction c with
  | nil => simp [cacheGet] at h
  | cons kv rest ih =>
      obtain ⟨k₀, v₀⟩ := kv
      by_cases h₀ : k = k₀
      · simp [cacheGet, h₀] at h
        simp [h₀, h]
      · simp [cacheGet, h₀] at h
        simp [ih h]

theorem cacheGet_of_mem_nodup (c : List (String × rrd_cache_t)) (k : String)
    (rc : rrd_cache_t) (hnd : (c.map Prod.fst).Nodup) (h : (k, rc) ∈ c) :
    cacheGet c k = some rc := by
  induction c with
  | nil => simp at h
  | cons kv rest ih =>
      obtain ⟨k₀, v₀⟩ := kv
      rw [List.map_cons] at hnd
      obtain ⟨hk₀, hrest⟩ := List.nodup_cons.mp hnd
      rcases List.mem_cons.mp h with h₁ | h₁
      · obtain ⟨hk, hv⟩ := Prod.ext_iff.mp h₁
        subst hk
        subst hv
        simp [cacheGet]
      · by_cases h₀ : k = k₀
        · subst h₀
          exact absurd (List.mem_map.mpr ⟨(k, rc), h₁, rfl⟩) hk₀
        · simp [cacheGet, h₀, ih hrest h₁]

theorem cacheRemove_of_get_none (c : List (String × rrd_cache_t)) (k : String)
    (h : cacheGet c k = none) : cacheRemove c k = c := by
  induction c with
  | nil => simp [cacheRemove]
  | cons kv rest ih =>
      obtain ⟨k₀, v₀⟩ := kv
      by_cases h₀ : k = k₀
      · simp [cacheGet, h₀] at h
      · simp [cacheGet, h₀] at h
        simp [cacheRemove, h₀, ih h]

theorem cacheGet_cacheRemove_ne (c : List (String × rrd_cache_t)) (k k' : String)
    (h : k' ≠ k) : cacheGet (cacheRemove c k) k' = cacheGet c k' := by
  induction c with
  | nil => simp [cacheRemove]
  | cons kv rest ih =>
      obtain ⟨k₀, v₀⟩ := kv
      by_cases h₀ : k = k₀
      · subst h₀; simp [cacheRemove, cacheGet, h]
      · by_cases h₁ : k' = k₀ <;> simp [cacheRemove, cacheGet, h₀, h₁, ih]

theorem keys_cacheRemove_sublist (c : List (String × rrd_cache_t)) (k : String) :
    List.Sublist ((cacheRemove c k).map Prod.fst) (c.map Prod.fst) := by
  induction c with
  | nil => simp [cacheRemove]
  | cons kv rest ih =>
      obtain ⟨k₀, v₀⟩ := kv
      by_cases h₀ : k = k₀
      · simp only [cacheRemove, if_pos h₀, List.map_cons]
        exact List.sublist_cons_self _ _
      · simpa [cacheRemove, h₀] using ih.cons₂ k₀

theorem cacheGet_cacheRemove_self (c : List (String × rrd_cache_t)) (k : String)
    (h : (c.map Prod.fst).Nodup) : cacheGet (cacheRemove c k) k = none := by
  induction c with
  | nil => simp [cacheRemove, cacheGet]
  | cons kv rest ih =>
      obtain ⟨k₀, v₀⟩ := kv
      rw [List.map_cons] at h
      obtain ⟨hk₀, hrest⟩ := List.nodup_cons.mp h
      by_cases h₀ : k = k₀
      · subst h₀
        cases hg : cacheGet rest k with
        | none => simp [cacheRemove, hg]
        | some v =>
            exact absurd (List.mem_map.mpr ⟨(k, v), mem_of_cacheGet rest k v hg, rfl⟩) hk₀
      · simp [cacheRemove, cacheGet, h₀, ih hrest]

theorem cacheGet_none_cacheRemove (c : List (String × rrd_cache_t)) (k k' : String)
    (h : cacheGet c k = none) : cacheGet (cacheRemove c k') k = none := by
  by_cases h₀ : k = k'
  · subst h₀; rw [cacheRemove_of_get_none c k h]; exact h
  · rw [cacheGet_cacheRemove_ne c k' k h₀]; exact h

theorem nodup_keys_cacheRemove (c : List (String × rrd_cache_t)) (k : String)
    (h : (c.map Prod.fst).Nodup) : ((cacheRemove c k).map Prod.fst).Nodup :=
  h.sublist (keys_cacheRemove_sublist c k)

theorem cacheGet_foldl_cacheRemove_not_mem (ks : List String)
    (c : List (String × rrd_cache_t)) (k : String) (h : k ∉ ks) :
    cacheGet (ks.foldl cacheRemove c) k = cacheGet c k := by
  induction ks generalizing c with
  | nil => simp
  | cons k₀ rest ih =>
      simp at h
      rw [List.foldl_cons, ih (cacheRemove c k₀) h.2,
        cacheGet_cacheRemove_ne c k₀ k h.1]

theorem cacheGet_foldl_cacheRemove_none (ks : List String)
    (c : List (String × rrd_cache_t)) (k : String) (h : cacheGet c k = none) :
    cacheGet (ks.foldl cacheRemove c) k = none := by
  induction ks generalizing c with
  | nil => simpa
  | cons k₀ rest ih =>
      rw [List.foldl_cons]
      exact ih _ (cacheGet_none_cacheRemove c k k₀ h)

theorem cacheGet_foldl_cacheRemove_mem (ks : List String)
    (c : List (String × rrd_cache_t)) (k : String)
    (hnd : (c.map Prod.fst).Nodup) (h : k ∈ ks) :
    cacheGet (ks.foldl cacheRemove c) k = none := by
  induction ks generalizing c with
  | nil => simp at h
  | cons k₀ rest ih =>
      rw [List.foldl_cons]
      by_cases h₀ : k = k₀
      · subst h₀
        exact cacheGet_foldl_cacheRemove_none rest _ k
          (cacheGet_cacheRemove_self c k hnd)
      · simp [h₀] at h
        exact ih (cacheRemove c k₀) (nodup_keys_cacheRemove c k₀ hnd) h

/-! ## Queue lemmas -/

theorem queue_back_nodes (q : RQueue) (f : String) (h : q.wf) :
    (rrd_queue_cache_entry f QUEUE_INSERT_BACK q).2.nodes = q.nodes ++ [f] := by
  rcases h with h | h
  · simp [rrd_queue_cache_entry, h]
  · have hne : ¬ q.nodes.isEmpty := by
      cases hn : q.nodes with
      | nil => rw [hn] at h; simp at h
      | cons a l => simp [hn]
    simp [rrd_queue_cache_entry, hne, h, List.take_length]

theorem queue_back_wf (q : RQueue) (f : String) (h : q.wf) :
    (rrd_queue_cache_entry f QUEUE_INSERT_BACK q).2.wf := by
  rcases h with h | h
  · simp [rrd_queue_cache_entry, h, RQueue.wf]
  · have hne : ¬ q.nodes.isEmpty := by
      cases hn : q.nodes with
      | nil => rw [hn] at h; simp at h
      | cons a l => simp [hn]
    simp [rrd_queue_cache_entry, hne, h, List.take_length, RQueue.wf]

/-! ## Sweep traversal lemmas -/

theorem flushScan_fst (t n : Int) (c : List (String × rrd_cache_t)) (q : RQueue) :
    (flushScan t n c q).1 = c.map (fun kv => (kv.1, valueMark t n kv.2)) := by
  induction c generalizing q with
  | nil => simp [flushScan]
  | cons kv rest ih =>
      obtain ⟨key, rc⟩ := kv
      by_cases h₁ : rc.flags = FLAG_QUEUED
      · simp [flushScan, h₁, valueMark, ih]
      · by_cases h₂ : n - rc.first_value < t
        · have h₂' : ¬ t ≤ n - rc.first_value := not_le.mpr h₂
          simp [flushScan, h₁, h₂, h₂', valueMark, ih]
        · have h₂' : t ≤ n - rc.first_value := not_lt.mp h₂
          by_cases h₃ : rc.values_num > 0
          · simp [flushScan, h₁, h₂, h₂', h₃, valueMark, ih]
          · simp [flushScan, h₁, h₂, h₂', h₃, valueMark, ih]

theorem flushScan_dels (t n : Int) (c : List (String × rrd_cache_t)) (q : RQueue) :
    (flushScan t n c q).2.2 = c.filterMap
      (fun kv => if sweepDeletes t n kv.2 then some kv.1 else none) := by
  induction c generalizing q with
  | nil => simp [flushScan]
  | cons kv rest ih =>
      obtain ⟨key, rc⟩ := kv
      by_cases h₁ : rc.flags = FLAG_QUEUED
      · simp [flushScan, h₁, sweepDeletes, List.filterMap_cons, ih]
      · by_cases h₂ : n - rc.first_value < t
        · have h₂' : ¬ t ≤ n - rc.first_value := not_le.mpr h₂
          simp [flushScan, h₁, h₂, h₂', sweepDeletes, List.filterMap_cons, ih]
        · have h₂' : t ≤ n - rc.first_value := not_lt.mp h₂
          by_cases h₃ : rc.values_num > 0
          · have h₄ : ¬ rc.values_num = 0 := by omega
            simp [flushScan, h₁, h₂, h₂', h₃, h₄, sweepDeletes, List.filterMap_cons, ih]
          · have h₄ : rc.values_num = 0 := by omega
            simp [flushScan, h₁, h₂, h₂', h₃, h₄, sweepDeletes, List.filterMap_cons, ih]

theorem flushScan_queue (t n : Int) (c : List (String × rrd_cache_t)) (q : RQueue)
    (hq : q.wf) :
    (flushScan t n c q).2.1.nodes = q.nodes ++ c.filterMap
      (fun kv => if sweepEnqueues t n kv.2 then some kv.1 else none) ∧
    (flushScan t n c q).2.1.wf := by
  induction c generalizing q with
  | nil => simpa [flushScan]
  | cons kv rest ih =>
      obtain ⟨key, rc⟩ := kv
      by_cases h₁ : rc.flags = FLAG_QUEUED
      · simpa [flushScan, h₁, sweepEnqueues, List.filterMap_cons] using ih q hq
      · by_cases h₂ : n - rc.first_value < t
        · have h₂' : ¬ t ≤ n - rc.first_value := not_le.mpr h₂
          simpa [flushScan, h₁, h₂, h₂', sweepEnqueues, List.filterMap_cons]
            using ih q hq
        · have h₂' : t ≤ n - rc.first_value := not_lt.mp h₂
          by_cases h₃ : rc.values_num > 0
          · have h4 := ih (rrd_queue_cache_entry key QUEUE_INSERT_BACK q).2
              (queue_back_wf q key hq)
            rw [queue_back_nodes q key hq] at h4
            simpa [flushScan, h₁, h₂, h₂', h₃, sweepEnqueues, List.filterMap_cons]
              using h4
          · simpa [flushScan, h₁, h₂, h₂', h₃, sweepEnqueues, List.filterMap_cons]
              using ih q hq

theorem cacheGet_map_valueMark (t n : Int) (c : List (String × rrd_cache_t))
    (k : String) :
    cacheGet (c.map (fun kv => (kv.1, valueMark t n kv.2))) k =
      (cacheGet c k).map (valueMark t n) := by
  induction c with
  | nil => simp [cacheGet]
  | cons kv rest ih =>
      obtain ⟨k₀, v₀⟩ := kv
      by_cases h₀ : k = k₀ <;> simp [cacheGet, h₀, ih]

theorem keys_map_valueMark (t n : Int) (c : List (String × rrd_cache_t)) :
    (c.map (fun kv => (kv.1, valueMark t n kv.2))).map Prod.fst = c.map Prod.fst := by
  induction c with
  | nil => simp
  | cons kv rest ih => simp [ih]

theorem valueMark_last_value (t n : Int) (rc : rrd_cache_t) :
    (valueMark t n rc).last_value = rc.last_value := by
  unfold valueMark; split <;> rfl

theorem valueMark_first_value (t n : Int) (rc : rrd_cache_t) :
    (valueMark t n rc).first_value = rc.first_value := by
  unfold valueMark; split <;> rfl

theorem valueMark_values_num (t n : Int) (rc : rrd_cache_t) :
    (valueMark t n rc).values_num = rc.values_num := by
  unfold valueMark; split <;> rfl

theorem valueMark_of_queued (t n : Int) (rc : rrd_cache_t)
    (h : rc.flags = FLAG_QUEUED) : valueMark t n rc = rc := by
  simp [valueMark, h]

theorem valueMark_flags_queued (t n : Int) (rc : rrd_cache_t)
    (h : rc.flags = FLAG_QUEUED) : (valueMark t n rc).flags = FLAG_QUEUED := by
  rw [valueMark_of_queued t n rc h, h]

/-- An entry that still holds tokens survives a sweep: it stays in the
cache (possibly queued by it), its fields other than `flags` untouched. -/
theorem sweep_preserves_nonempty (t n : Int) (s : CState) (k : String)
    (rc : rrd_cache_t) (hnd : (s.cache.map Prod.fst).Nodup)
    (hget : cacheGet s.cache k = some rc) (hnum : rc.values_num ≠ 0) :
    cacheGet (rrd_cache_flush t n s).cache k = some (valueMark t n rc) := by
  have hmap : cacheGet ((flushScan t n s.cache s.queue).1) k =
      some (valueMark t n rc) := by
    rw [flushScan_fst, cacheGet_map_valueMark, hget]; rfl
  have hnd' : (((flushScan t n s.cache s.queue).1).map Prod.fst).Nodup := by
    rw [flushScan_fst, keys_map_valueMark]; exact hnd
  have hdel : k ∉ (flushScan t n s.cache s.queue).2.2 := by
    rw [flushScan_dels]
    intro hk
    obtain ⟨kv, hkv, hsome⟩ := List.mem_filterMap.mp hk
    by_cases hc : sweepDeletes t n kv.2
    · rw [if_pos hc] at hsome
      obtain rfl : kv.1 = k := Option.some.inj hsome
      have : cacheGet s.cache kv.1 = some kv.2 :=
        cacheGet_of_mem_nodup s.cache kv.1 kv.2 hnd (by simpa using hkv)
      rw [hget] at this
      obtain rfl : rc = kv.2 := Option.some.inj this
      exact hnum hc.2.2
    · rw [if_neg hc] at hsome
      exact Option.noConfusion hsome
  calc cacheGet (rrd_cache_flush t n s).cache k
      = cacheGet ((flushScan t n s.cache s.queue).2.2.foldl cacheRemove
          (flushScan t n s.cache s.queue).1) k := rfl
    _ = some (valueMark t n rc) := by
        rw [cacheGet_foldl_cacheRemove_not_mem _ _ _ hdel, hmap]

/-- The status of the queue insert helper: `0` whenever allocation
succeeds, which the model assumes. -/
theorem rrd_queue_cache_entry_status (f : String) (dir : rrd_queue_dir_t)
    (q : RQueue) : (rrd_queue_cache_entry f dir q).1 = 0 := by
  unfold rrd_queue_cache_entry
  cases dir <;> split <;> split <;> rfl

/-! ## Scan-loop lemmas for `rrd_queue_move_to_front` -/

theorem queueFindIdx_of_not_mem (f : String) (l : List String) (h : f ∉ l) :
    queueFindIdx f l = none := by
  induction l with
  | nil => rfl
  | cons x xs ih =>
      have hx : ¬ x = f := fun e => h (by simp [e])
      have hxs : f ∉ xs := fun e => h (by simp [e])
      simp [queueFindIdx, hx, ih hxs]

theorem queueFindIdx_append_cons (f : String) (pre post : List String)
    (h : f ∉ pre) : queueFindIdx f (pre ++ f :: post) = some pre.length := by
  induction pre with
  | nil => simp [queueFindIdx]
  | cons x xs ih =>
      have hx : ¬ x = f := fun e => h (by simp [e])
      have hxs : f ∉ xs := fun e => h (by simp [e])
      simp [queueFindIdx, hx, ih hxs]

theorem eraseIdx_append_cons (f : String) (pre post : List String) :
    (pre ++ f :: post).eraseIdx pre.length = pre ++ post := by
  induction pre with
  | nil => simp
  | cons x xs ih => simpa using ih

/-! ## The claims -/

/-- C9 (confirmed): at init, a configured `cache_timeout` below 2 zeroes
both timeouts; otherwise a `cache_flush_timeout` below `cache_timeout` is
raised to `10 * cache_timeout`, and otherwise both keep their configured
values. -/
theorem rrd_init_timeouts_spec (ct cft : Int) :
    (ct < 2 → rrd_init_timeouts ct cft = (0, 0)) ∧
    (2 ≤ ct → cft < ct → rrd_init_timeouts ct cft = (ct, 10 * ct)) ∧
    (2 ≤ ct → ct ≤ cft → rrd_init_timeouts ct cft = (ct, cft)) := by
  refine ⟨fun h => ?_, fun h1 h2 => ?_, fun h1 h2 => ?_⟩
  · rw [rrd_init_timeouts, if_pos h]
  · rw [rrd_init_timeouts, if_neg (by omega), if_pos h2]
  · rw [rrd_init_timeouts, if_neg (by omega), if_neg (by omega)]

/-- Witness for C9: the three regimes at concrete configurations. -/
theorem rrd_init_timeouts_spec_witness :
    rrd_init_timeouts 1 7 = (0, 0) ∧ rrd_init_timeouts 5 3 = (5, 10 * 5) ∧
    rrd_init_timeouts 5 9 = (5, 9) :=
  ⟨(rrd_init_timeouts_spec 1 7).1 (by norm_num),
   (rrd_init_timeouts_spec 5 3).2.1 (by norm_num) (by norm_num),
   (rrd_init_timeouts_spec 5 9).2.2 (by norm_num) (by norm_num)⟩

/-- C10 (confirmed): the very first insert for an unknown filename with a
timestamp `t ≤ 0` is rejected as out of order and leaves the cache without
an entry for it, because the freshly allocated entry starts with
`last_value = 0` and the rejection test `last_value ≥ t` compares against
that zero. -/
theorem insert_fresh_nonpositive_time_rejected (s : CState) (f v : String)
    (t now : Int) (habs : cacheGet s.cache f = none) (ht : t ≤ 0) :
    rrd_cache_insert f v t now s = (-1, s) := by
  have hrc : (cacheGet s.cache f).getD freshEntry = freshEntry := by
    rw [habs]; rfl
  have hle : freshEntry.last_value ≥ t := by
    simp only [freshEntry]; omega
  simp only [rrd_cache_insert, hrc, if_pos hle]

/-- Witness for C10: inserting at time 0 into the pristine state fails and
changes nothing. -/
theorem insert_fresh_nonpositive_time_rejected_witness :
    rrd_cache_insert "h/p/t.rrd" "0:1" 0 7 emptyState = (-1, emptyState) :=
  insert_fresh_nonpositive_time_rejected emptyState "h/p/t.rrd" "0:1" 0 7 rfl
    (by norm_num)

/-- C1 (code bug): the queue/`FLAG_QUEUED` invariant breaks on a reachable
state.  From the pristine state, insert `a.rrd` and `b.rrd` (both get
queued, `queue_tail` on `b.rrd`), flush identifier `b` (the queued `b.rrd`
is relinked at the head but `queue_tail` still addresses it), then insert
`c.rrd`: the back insert follows the stale tail, overwrites the head's
`next` link and drops `a.rrd` from the queue, which ends as
`b.rrd, c.rrd` while `a.rrd` still has `flags = FLAG_QUEUED`. -/
theorem queued_flag_without_queue_node_at_c1_s4 :
    c1_s4.queue.nodes = ["b.rrd", "c.rrd"] ∧
    (cacheGet c1_s4.cache "a.rrd").map rrd_cache_t.flags = some FLAG_QUEUED ∧
    "a.rrd" ∉ c1_s4.queue.nodes := by decide

/-- C3 (corrected, counterexample): flushing an identifier that is not in
the cache makes the host-facing `rrd_flush` return `0` (success), not an
error, because line 709 discards the helper's status. -/
theorem rrd_flush_unknown_identifier_returns_zero :
    cacheGet emptyState.cache (flushKey emptyState.datadir "missing") = none ∧
    rrd_flush 30 (some "missing") 0 (some emptyState) = (0, some emptyState) := by
  decide

/-- C3 (amended): for an identifier whose key is absent,
`rrd_cache_flush_identifier` does return the non-zero `NOT_FOUND` status,
but `rrd_flush` discards it and reports `0` to its caller. -/
theorem flush_identifier_not_found_status_discarded (s : CState)
    (timeout now : Int) (id : String)
    (habs : cacheGet s.cache (flushKey s.datadir id) = none) :
    (rrd_cache_flush_identifier timeout (some id) now s).1 = -1 ∧
    rrd_flush timeout (some id) now (some s) = (0, some s) := by
  constructor
  · simp [rrd_cache_flush_identifier, habs]
  · simp [rrd_flush, rrd_cache_flush_identifier, habs]

/-- Witness for the amended C3 at a concrete state and identifier. -/
theorem flush_identifier_not_found_status_discarded_witness :
    (rrd_cache_flush_identifier 30 (some "nope") 5 writerDemoState).1 = -1 ∧
    rrd_flush 30 (some "nope") 5 (some writerDemoState) =
      (0, some writerDemoState) :=
  flush_identifier_not_found_status_discarded writerDemoState 30 5 "nope"
    (by decide)

/-- C6 (corrected, counterexample): `rrd_queue_move_to_front` returns `0`
both when it moves a node (`b.rrd`, found at the tail, is relinked at the
head) and when it moves nothing (`c.rrd` is not in the queue), so its
return value does not indicate whether a move occurred. -/
theorem move_to_front_return_blind_to_move :
    rrd_queue_move_to_front "b.rrd" ⟨["a.rrd", "b.rrd"], 1⟩ =
      (⟨["b.rrd", "a.rrd"], 0⟩, 0) ∧
    rrd_queue_move_to_front "c.rrd" ⟨["a.rrd", "b.rrd"], 1⟩ =
      (⟨["a.rrd", "b.rrd"], 1⟩, 0) := by decide

/-- C6 (amended): `rrd_queue_move_to_front` scans from the head; a
filename found at a non-head position is unlinked and relinked at the
head, the relative order of all other nodes unchanged; a filename at the
head, or absent, leaves the queue untouched; and the function always
returns `0`, regardless of whether a move occurred. -/
theorem move_to_front_spec (q : RQueue) (f : String) :
    (rrd_queue_move_to_front f q).2 = 0 ∧
    (f ∉ q.nodes → (rrd_queue_move_to_front f q).1 = q) ∧
    (∀ post, q.nodes = f :: post → (rrd_queue_move_to_front f q).1 = q) ∧
    (∀ pre post, q.nodes = pre ++ f :: post → f ∉ pre → pre ≠ [] →
      (rrd_queue_move_to_front f q).1.nodes = f :: (pre ++ post)) := by
  refine ⟨?_, fun h => ?_, fun post h => ?_, fun pre post h hpre hne => ?_⟩
  · unfold rrd_queue_move_to_front
    cases hfi : queueFindIdx f q.nodes with
    | none => rfl
    | some i => by_cases hi : i = 0 <;> simp [hi]
  · simp [rrd_queue_move_to_front, queueFindIdx_of_not_mem f q.nodes h]
  · have : queueFindIdx f q.nodes = some 0 := by
      rw [h]; simp [queueFindIdx]
    simp [rrd_queue_move_to_front, this]
  · have hfi : queueFindIdx f (pre ++ f :: post) = some pre.length :=
      queueFindIdx_append_cons f pre post hpre
    have hlen : pre.length ≠ 0 := fun e => hne (List.eq_nil_of_length_eq_zero e)
    simp [rrd_queue_move_to_front, h, hfi, hlen, eraseIdx_append_cons]

/-- Witness for the amended C6: promoting `b` from the middle of
`a, b, c` yields `b, a, c` with the others' order preserved. -/
theorem move_to_front_spec_witness :
    (rrd_queue_move_to_front "b" ⟨["a", "b", "c"], 2⟩).1.nodes =
      "b" :: (["a"] ++ ["c"]) :=
  (move_to_front_spec ⟨["a", "b", "c"], 2⟩ "b").2.2.2 ["a"] ["c"] rfl
    (by decide) (by decide)

/-- C4 (confirmed): when the writer dequeues filename `f` and steals its
entry's buffer, the step hands `srrd_update` exactly the entry's tokens,
and the entry is retained in the cache with `values = NULL`,
`values_num = 0`, `flags = FLAG_NONE`, its `first_value` and `last_value`
unchanged from before the steal. -/
theorem writer_steal_frame (s : CState) (f : String) (q' : RQueue)
    (rc : rrd_cache_t) (hdq : rrd_queue_dequeue s.queue = some (f, q'))
    (hget : cacheGet s.cache f = some rc) :
    ∃ s', rrd_queue_thread_step s = some (s', f, rc.values) ∧
      cacheGet s'.cache f = some
        { values_num := 0, values := [], first_value := rc.first_value,
          last_value := rc.last_value, flags := FLAG_NONE } := by
  simp only [rrd_queue_thread_step, hdq, hget]
  exact ⟨_, rfl, cacheGet_cacheUpdate_self s.cache f _⟩

/-- Witness for C4: the writer visits `writerDemoState`, steals both
tokens of `x.rrd` and leaves the emptied, unqueued entry behind. -/
theorem writer_steal_frame_witness :
    ∃ s', rrd_queue_thread_step writerDemoState =
        some (s', "x.rrd", ["1:0", "2:0"]) ∧
      cacheGet s'.cache "x.rrd" = some
        { values_num := 0, values := [], first_value := 1,
          last_value := 2, flags := FLAG_NONE } :=
  writer_steal_frame writerDemoState "x.rrd" ⟨[], 0⟩
    ⟨2, ["1:0", "2:0"], 1, 2, FLAG_QUEUED⟩ rfl rfl

/-- C2 (confirmed): against each entry's `last_value` (zero for a filename
not yet cached), an insert with `t ≤ last_value` fails with the
out-of-order status and leaves the whole state — in particular the cache
mapping — unchanged, while an insert with `t > last_value` succeeds and
raises the entry's `last_value` to exactly `t`. -/
theorem insert_timestamp_monotonic (s : CState) (f v : String) (t now : Int)
    (hnd : (s.cache.map Prod.fst).Nodup) :
    (t ≤ ((cacheGet s.cache f).getD freshEntry).last_value →
      rrd_cache_insert f v t now s = (-1, s)) ∧
    (((cacheGet s.cache f).getD freshEntry).last_value < t →
      (rrd_cache_insert f v t now s).1 = 0 ∧
      ∃ rc', cacheGet (rrd_cache_insert f v t now s).2.cache f = some rc' ∧
        rc'.last_value = t) := by
  constructor
  · intro h
    simp only [rrd_cache_insert, if_pos (show
      ((cacheGet s.cache f).getD freshEntry).last_value ≥ t from h)]
  · intro h
    have h' : ¬ ((cacheGet s.cache f).getD freshEntry).last_value ≥ t :=
      not_le.mpr h
    constructor
    · simp only [rrd_cache_insert, if_neg h']
    · simp only [rrd_cache_insert, if_neg h']
      split_ifs with h1 h2 h3 h4 h5 h6 h7 h8 <;>
        first
          | exact ⟨_, cacheGet_cacheUpdate_self s.cache f _, rfl⟩
          | · refine ⟨_, sweep_preserves_nonempty _ _ _ f _
                (nodup_keys_cacheUpdate s.cache f _ hnd)
                (cacheGet_cacheUpdate_self s.cache f _) (by simp), ?_⟩
              rw [valueMark_last_value]

/-- Witness for C2: against the entry `x.rrd` with `last_value = 2`, an
insert at `t = 1` is rejected leaving the state untouched, and an insert
at `t = 3` is accepted. -/
theorem insert_timestamp_monotonic_witness :
    rrd_cache_insert "x.rrd" "1:9" 1 5 writerDemoState = (-1, writerDemoState) ∧
    (rrd_cache_insert "x.rrd" "3:9" 3 5 writerDemoState).1 = 0 :=
  ⟨(insert_timestamp_monotonic writerDemoState "x.rrd" "1:9" 1 5
      (by decide)).1 (by decide),
   ((insert_timestamp_monotonic writerDemoState "x.rrd" "3:9" 3 5
      (by decide)).2 (by decide)).1⟩

/-- C5 (confirmed): whenever an insert is accepted and, after the append,
`last_value - first_value ≥ cache_timeout` with the entry not already
queued, the filename is enqueued at the back of the dispatch queue (the
in-line sweep may append further filenames after it) and the entry's
flags become `FLAG_QUEUED`; in particular, with `cache_timeout = 0` the
first successful insert for a new filename enqueues it immediately. -/
theorem insert_enqueues_on_age :
    (∀ (s : CState) (f v : String) (t now : Int),
      (s.cache.map Prod.fst).Nodup → s.queue.wf →
      ¬ ((cacheGet s.cache f).getD freshEntry).last_value ≥ t →
      ((cacheGet s.cache f).getD freshEntry).flags ≠ FLAG_QUEUED →
      t - (if ((cacheGet s.cache f).getD freshEntry).values_num = 0 then t
           else ((cacheGet s.cache f).getD freshEntry).first_value) ≥
        s.cache_timeout →
      (∃ extra, (rrd_cache_insert f v t now s).2.queue.nodes =
        s.queue.nodes ++ f :: extra) ∧
      ∃ rc', cacheGet (rrd_cache_insert f v t now s).2.cache f = some rc' ∧
        rc'.flags = FLAG_QUEUED) ∧
    (∀ (s : CState) (f v : String) (t now : Int),
      (s.cache.map Prod.fst).Nodup → s.queue.wf →
      cacheGet s.cache f = none → s.cache_timeout = 0 → 0 < t →
      (∃ extra, (rrd_cache_insert f v t now s).2.queue.nodes =
        s.queue.nodes ++ f :: extra) ∧
      ∃ rc', cacheGet (rrd_cache_insert f v t now s).2.cache f = some rc' ∧
        rc'.flags = FLAG_QUEUED) := by
  have main : ∀ (s : CState) (f v : String) (t now : Int),
      (s.cache.map Prod.fst).Nodup → s.queue.wf →
      ¬ ((cacheGet s.cache f).getD freshEntry).last_value ≥ t →
      ((cacheGet s.cache f).getD freshEntry).flags ≠ FLAG_QUEUED →
      t - (if ((cacheGet s.cache f).getD freshEntry).values_num = 0 then t
           else ((cacheGet s.cache f).getD freshEntry).first_value) ≥
        s.cache_timeout →
      (∃ extra, (rrd_cache_insert f v t now s).2.queue.nodes =
        s.queue.nodes ++ f :: extra) ∧
      ∃ rc', cacheGet (rrd_cache_insert f v t now s).2.cache f = some rc' ∧
        rc'.flags = FLAG_QUEUED := by
    intro s f v t now hnd hq hs hflag hage
    have hage' : t - (if ((cacheGet s.cache f).getD freshEntry).values_num + 1 = 1
        then t else ((cacheGet s.cache f).getD freshEntry).first_value) ≥
        s.cache_timeout := by
      by_cases hv : ((cacheGet s.cache f).getD freshEntry).values_num = 0
      · simpa [hv] using hage
      · have h1 : ¬ (((cacheGet s.cache f).getD freshEntry).values_num + 1 = 1) := by
          omega
        rw [if_neg h1]
        rw [if_neg hv] at hage
        exact hage
    simp only [rrd_cache_insert, if_neg hs]
    rw [if_pos hage', if_pos hflag,
      if_pos (rrd_queue_cache_entry_status f QUEUE_INSERT_BACK s.queue)]
    by_cases hsw : s.cache_timeout > 0 ∧
        now - s.cache_flush_last > s.cache_flush_timeout
    · rw [if_pos hsw]
      constructor
      · apply Exists.intro
        simp only [rrd_cache_flush]
        rw [(flushScan_queue s.cache_flush_timeout now _ _
            (queue_back_wf s.queue f hq)).1,
          queue_back_nodes s.queue f hq]
        simp only [List.append_assoc, List.cons_append, List.nil_append]
        rfl
      · refine ⟨_, sweep_preserves_nonempty s.cache_flush_timeout now _ f _
          (nodup_keys_cacheUpdate s.cache f _ hnd)
          (cacheGet_cacheUpdate_self s.cache f _) (Nat.succ_ne_zero _), ?_⟩
        exact valueMark_flags_queued _ _ _ rfl
    · rw [if_neg hsw]
      constructor
      · exact ⟨[], by rw [queue_back_nodes s.queue f hq]⟩
      · exact ⟨_, cacheGet_cacheUpdate_self s.cache f _, rfl⟩
  refine ⟨main, ?_⟩
  intro s f v t now hnd hq habs hct ht
  have h0 : (cacheGet s.cache f).getD freshEntry = freshEntry := by
    rw [habs]; rfl
  apply main s f v t now hnd hq
  · rw [h0]
    simp only [freshEntry]
    omega
  · rw [h0]
    simp [freshEntry]
  · rw [h0, hct]
    simp only [freshEntry, if_pos rfl]
    omega

/-- Witness for C5: with `cache_timeout = 0`, the first insert for
`g.rrd` (through the general clause) and for `p.rrd` (through the
`cache_timeout = 0` clause) lands the file in the queue, flagged. -/
theorem insert_enqueues_on_age_witness :
    ((∃ extra, (rrd_cache_insert "g.rrd" "2:1" 2 2 emptyState).2.queue.nodes =
        emptyState.queue.nodes ++ "g.rrd" :: extra) ∧
      ∃ rc', cacheGet (rrd_cache_insert "g.rrd" "2:1" 2 2 emptyState).2.cache
          "g.rrd" = some rc' ∧ rc'.flags = FLAG_QUEUED) ∧
    ((∃ extra, (rrd_cache_insert "p.rrd" "3:1" 3 3 emptyState).2.queue.nodes =
        emptyState.queue.nodes ++ "p.rrd" :: extra) ∧
      ∃ rc', cacheGet (rrd_cache_insert "p.rrd" "3:1" 3 3 emptyState).2.cache
          "p.rrd" = some rc' ∧ rc'.flags = FLAG_QUEUED) :=
  ⟨insert_enqueues_on_age.1 emptyState "g.rrd" "2:1" 2 2 (by decide) (by decide)
      (by decide) (by decide) (by decide),
   insert_enqueues_on_age.2 emptyState "p.rrd" "3:1" 3 3 (by decide) (by decide)
      (by decide) (by decide) (by decide)⟩

/-- C7 (confirmed): a sweep with `timeout = -1` (shutdown phase 1 runs
`rrd_cache_flush (-1)` under the cache lock) enqueues at the back, and
marks `FLAG_QUEUED`, every entry that is not already queued and has
tokens; deletes from the cache every not-yet-queued token-less entry;
stamps `cache_flush_last` with `now`; and sweeping is the only operation
of the running system that removes a cache entry — an insert that does
not trigger the in-line sweep, a targeted flush, and the writer's steal
all preserve every cache key.  Hypotheses: the queue tail pointer is in
sync, cache keys are unique, and no entry's `first_value` lies in the
future. -/
theorem sweep_drain_spec :
    (∀ (s : CState) (now : Int), s.queue.wf → (s.cache.map Prod.fst).Nodup →
      (∀ kv ∈ s.cache, kv.2.first_value ≤ now) →
      (rrd_cache_flush (-1) now s).cache_flush_last = now ∧
      (rrd_cache_flush (-1) now s).queue.nodes = s.queue.nodes ++
        s.cache.filterMap (fun kv =>
          if kv.2.flags ≠ FLAG_QUEUED ∧ kv.2.values_num > 0 then some kv.1
          else none) ∧
      (∀ kv ∈ s.cache, kv.2.flags ≠ FLAG_QUEUED → kv.2.values_num > 0 →
        cacheGet (rrd_cache_flush (-1) now s).cache kv.1 =
          some { kv.2 with flags := FLAG_QUEUED }) ∧
      (∀ kv ∈ s.cache, kv.2.flags ≠ FLAG_QUEUED → kv.2.values_num = 0 →
        cacheGet (rrd_cache_flush (-1) now s).cache kv.1 = none)) ∧
    (∀ (s : CState) (f v : String) (t now : Int) (k : String),
      ¬ (s.cache_timeout > 0 ∧
          now - s.cache_flush_last > s.cache_flush_timeout) →
      k ∈ s.cache.map Prod.fst →
      k ∈ (rrd_cache_insert f v t now s).2.cache.map Prod.fst) ∧
    (∀ (s : CState) (timeout now : Int) (id k : String),
      k ∈ s.cache.map Prod.fst →
      k ∈ (rrd_cache_flush_identifier timeout (some id) now s).2.cache.map
        Prod.fst) ∧
    (∀ (s : CState) (k : String), k ∈ s.cache.map Prod.fst →
      ∀ r : CState × String × List String, rrd_queue_thread_step s = some r →
      k ∈ r.1.cache.map Prod.fst) := by
  refine ⟨?_, ?_, ?_, ?_⟩
  · intro s now hq hnd hfv
    refine ⟨rfl, ?_, ?_, ?_⟩
    · simp only [rrd_cache_flush]
      rw [(flushScan_queue (-1) now s.cache s.queue hq).1]
      congr 1
      apply List.filterMap_congr
      intro kv hkv
      have h1 : ¬ (now - kv.2.first_value < -1) := by
        have := hfv kv hkv; omega
      by_cases h2 : kv.2.flags = FLAG_QUEUED
      · simp [sweepEnqueues, h2]
      · by_cases h3 : kv.2.values_num > 0 <;>
          simp [sweepEnqueues, h1, h2, h3]
    · intro kv hkv hflag hnum
      have hget : cacheGet s.cache kv.1 = some kv.2 :=
        cacheGet_of_mem_nodup _ _ _ hnd (by simpa using hkv)
      rw [sweep_preserves_nonempty (-1) now s kv.1 kv.2 hnd hget (by omega)]
      congr 1
      unfold valueMark
      exact if_pos ⟨hflag, by have := hfv kv hkv; omega, hnum⟩
    · intro kv hkv hflag hnum
      have hmem : kv.1 ∈ (flushScan (-1) now s.cache s.queue).2.2 := by
        rw [flushScan_dels]
        refine List.mem_filterMap.mpr ⟨kv, hkv, ?_⟩
        exact if_pos ⟨hflag, by have := hfv kv hkv; omega, hnum⟩
      simp only [rrd_cache_flush]
      apply cacheGet_foldl_cacheRemove_mem _ _ _ _ hmem
      rw [flushScan_fst, keys_map_valueMark]
      exact hnd
  · intro s f v t now k hnsw hk
    by_cases hrej : ((cacheGet s.cache f).getD freshEntry).last_value ≥ t
    · simp only [rrd_cache_insert, if_pos hrej]
      exact hk
    · simp only [rrd_cache_insert, if_neg hrej]
      rw [if_neg hnsw]
      exact mem_keys_cacheUpdate s.cache f k _ hk
  · intro s timeout now id k hk
    simp only [rrd_cache_flush_identifier]
    split
    · simpa using hk
    · split_ifs <;>
        first
          | simpa using hk
          | exact mem_keys_cacheUpdate s.cache _ k _ hk
  · intro s k hk r h
    simp only [rrd_queue_thread_step] at h
    split at h
    · exact absurd h (by simp)
    · split at h
      · obtain rfl := Option.some.inj h
        simpa using hk
      · obtain rfl := Option.some.inj h
        exact mem_keys_cacheUpdate s.cache _ k _ hk

/-- Witness for C7: the shutdown sweep of `sweepDemoState` at time 9
queues `n.rrd` behind the already queued `q.rrd`, deletes the empty idle
`e.rrd`, stamps `cache_flush_last`; and an insert, a targeted flush and a
writer step each keep the keys they do not sweep. -/
theorem sweep_drain_spec_witness :
    ((rrd_cache_flush (-1) 9 sweepDemoState).cache_flush_last = 9 ∧
     (rrd_cache_flush (-1) 9 sweepDemoState).queue.nodes =
       sweepDemoState.queue.nodes ++ sweepDemoState.cache.filterMap (fun kv =>
         if kv.2.flags ≠ FLAG_QUEUED ∧ kv.2.values_num > 0 then some kv.1
         else none) ∧
     cacheGet (rrd_cache_flush (-1) 9 sweepDemoState).cache "n.rrd" =
       some { values_num := 2, values := ["3:1", "4:1"], first_value := 3,
              last_value := 4, flags := FLAG_QUEUED } ∧
     cacheGet (rrd_cache_flush (-1) 9 sweepDemoState).cache "e.rrd" = none) ∧
    "q.rrd" ∈ (rrd_cache_insert "z.rrd" "9:1" 9 5 sweepDemoState).2.cache.map
      Prod.fst ∧
    "n.rrd" ∈ (rrd_cache_flush_identifier 0 (some "q") 9
      sweepDemoState).2.cache.map Prod.fst := by
  have h1 := sweep_drain_spec.1 sweepDemoState 9 (by decide) (by decide)
    (by decide)
  refine ⟨⟨h1.1, h1.2.1, ?_, ?_⟩, ?_, ?_⟩
  · exact h1.2.2.1 ("n.rrd", ⟨2, ["3:1", "4:1"], 3, 4, FLAG_NONE⟩)
      (by decide) (by decide) (by decide)
  · exact h1.2.2.2 ("e.rrd", ⟨0, [], 0, 2, FLAG_NONE⟩)
      (by decide) (by decide) (by decide)
  · exact sweep_drain_spec.2.1 sweepDemoState "z.rrd" "9:1" 9 5 "q.rrd"
      (by decide) (by decide)
  · exact sweep_drain_spec.2.2.1 sweepDemoState 0 9 "q" "n.rrd" (by decide)

/-! ## The filename encoder -/

theorem string_eq_empty_of_length_eq_zero (s : String) (h : s.length = 0) :
    s = "" := by
  cases s with
  | mk data =>
      cases data with
      | nil => rfl
      | cons c cs => exact absurd h (by simp [String.length])

/-- The bounded-append chain succeeds exactly when the pieces (all
non-empty) fit the remaining buffer, and then produces the whole
concatenation. -/
theorem vlf_fold_eq (bl : Nat) (ps : List String) :
    ∀ (s : String) (off : Nat), (∀ p ∈ ps, 1 ≤ p.length) → off < bl →
      vlf_fold bl ps s off =
        if off + (ps.map String.length).sum < bl then some (s ++ strConcat ps)
        else none := by
  induction ps with
  | nil =>
      intro s off hne hoff
      simp [vlf_fold, strConcat, hoff, String.append_empty]
  | cons p ps ih =>
      intro s off hne hoff
      have hp : 1 ≤ p.length := hne p (by simp)
      have hps : ∀ q ∈ ps, 1 ≤ q.length := fun q hq => hne q (by simp [hq])
      by_cases hfit : bl - off ≤ p.length
      · have hbig : ¬ (off + (p.length + (ps.map String.length).sum) < bl) := by
          omega
        simp [vlf_fold, hfit, hbig]
      · have hlt : off + p.length < bl := by omega
        have hcond : ¬ (p.length < 1 ∨ bl - off ≤ p.length) := by
          push_neg
          exact ⟨hp, by omega⟩
        rw [vlf_fold, if_neg hcond, ih (s ++ p) (off + p.length) hps hlt]
        simp [strConcat, String.append_assoc, Nat.add_assoc]

theorem vltf_aux (ps : List String) (can : String)
    (hne : ∀ p ∈ ps, 1 ≤ p.length) (hstr : strConcat ps = can)
    (hlen : (ps.map String.length).sum = can.length) :
    vlf_fold 512 ps "" 0 = if can.length < 512 then some can else none := by
  rw [vlf_fold_eq 512 ps "" 0 hne (by norm_num), hstr, hlen,
    String.empty_append, Nat.zero_add]

/-- C8 (confirmed): the encoder yields exactly the canonical
`{datadir/}host/plugin{-plugin_instance}/type{-type_instance}.rrd`
concatenation — an empty instance suppresses its `-instance` suffix, a
non-empty one is joined with a single `-` — whenever that string fits the
512-byte buffer (511 characters plus the terminating NUL), and fails as
soon as any intermediate formatting would exceed the buffer; being a
function of the sample fields, it is deterministic, so equal samples get
byte-equal filenames. -/
theorem value_list_to_filename_spec (d : Option String)
    (host plugin pi vtype ti : String) :
    value_list_to_filename 512 d host plugin pi vtype ti =
      if (canonicalFilename d host plugin pi vtype ti).length < 512
      then some (canonicalFilename d host plugin pi vtype ti) else none := by
  have h1 : ("/" : String).length = 1 := rfl
  have h2 : (".rrd" : String).length = 4 := rfl
  have h3 : ("-" : String).length = 1 := rfl
  have hemp : ("" : String).length = 0 := rfl
  rcases d with _ | dd <;> by_cases hpi : pi = "" <;> by_cases hti : ti = "" <;>
  · first
      | have hpil : pi.length > 0 := Nat.pos_of_ne_zero
          (fun h => hpi (string_eq_empty_of_length_eq_zero pi h))
      | subst hpi
    first
      | have htil : ti.length > 0 := Nat.pos_of_ne_zero
          (fun h => hti (string_eq_empty_of_length_eq_zero ti h))
      | subst hti
    simp only [value_list_to_filename, hemp, *, gt_iff_lt, lt_self_iff_false,
      if_true, if_false]
    refine vltf_aux _ _ ?_ ?_ ?_
    · intro p hp
      fin_cases hp <;> simp [String.length_append, h1, h2, h3]
    · simp [strConcat, canonicalFilename, *, String.append_assoc,
        String.append_empty, String.empty_append]
    · simp [canonicalFilename, *, String.length_append,
        String.append_empty, String.empty_append]
      omega

end Rrdtool
